import Mathlib

/-!
Verification development for the ligand-extraction core of plip
(src/plip/modules/supplemental.py): index reconciliation (parse_pdb),
the alternate-conformation filter (get_altconf_atoms), the geometry kernel
(euclidean3d, vector, projection), the BioLiP artifact-frequency filter of
getligs, and covalent-link clustering (cluster_doubles plus the kmer
assembly in getligs).

Structure-file lines are modelled as an inductive of the record kinds the
source dispatches on via line.startswith (the prefixes "ATOM"/"HETATM",
"TER", "MODRES", "LINK" are mutually exclusive), carrying the fixed-column
fields the source actually reads.  Fields that the source feeds to Python's
int() are kept as raw strings and parsed with pyInt, so that malformed
numeric fields (a raised ValueError in the source) are representable.
A Python exception propagating out of a function is modelled as a none /
PyResult.exn result.
-/

/-- Parse of a digit string to a natural number: one or more decimal digits. -/
def digitsToNat (cs : List Char) : Option Nat :=
  if cs ≠ [] ∧ cs.all Char.isDigit then
    some (cs.foldl (fun acc c => 10 * acc + (c.toNat - '0'.toNat)) 0)
  else none

/-- Whitespace stripping from both ends of a character list, as Python
str.strip() does before int() parses a field. -/
def stripWS (cs : List Char) : List Char :=
  ((cs.dropWhile Char.isWhitespace).reverse.dropWhile Char.isWhitespace).reverse

/-- Python int() applied to a fixed-column text field: surrounding whitespace
is ignored, then an optional single sign followed by one or more decimal
digits; anything else raises ValueError, modelled as none. -/
def pyInt (s : String) : Option Int :=
  match stripWS s.toList with
  | [] => none
  | '-' :: rest => (digitsToNat rest).map (fun n => -(n : Int))
  | '+' :: rest => (digitsToNat rest).map (fun n => (n : Int))
  | cs => (digitsToNat cs).map (fun n => (n : Int))

/-- One structure-file line, abstracted to the record kind the source
dispatches on (line.startswith) together with the fixed-column fields it
reads: for ATOM/HETATM the serial field line[6:11] (raw text, fed to int()
by get_altconf_atoms) and the alternate-location character line[16]; for
MODRES the stripped residue name line[12:15].strip(); for LINK the stripped
fields line[16], line[17:20], line[21] and the raw sequence-number text
line[22:26] of the first end, and line[46], line[47:50], line[51],
line[52:56] of the second end. -/
inductive PDBLine where
  | atomRec (serialField : String) (altloc : Char)
  | terRec
  | modresRec (resn : String)
  | linkRec (conf1 : String) (id1 : String) (chain1 : String) (pos1Field : String)
            (conf2 : String) (id2 : String) (chain2 : String) (pos2Field : String)
  | otherRec
  deriving DecidableEq

/-- Discriminator for ATOM/HETATM records. -/
def PDBLine.isAtom : PDBLine → Bool
  | .atomRec _ _ => true
  | _ => false

/-- covlinkage namedtuple of parse_pdb. -/
structure Covlinkage where
  id1 : String
  chain1 : String
  pos1 : Int
  conf1 : String
  id2 : String
  chain2 : String
  pos2 : Int
  conf2 : String
  deriving DecidableEq

/-- Loop state of parse_pdb: the two counters i (continuous) and j (native),
the mapping d (an association list; keys are inserted in strictly increasing
order, so it is exactly the Python dict), the modified-residue set, the
covalent-link list and the previous_ter flag. -/
structure PState where
  i : Nat
  j : Nat
  d : List (Nat × Nat)
  modres : Finset String
  covalent : List Covlinkage
  previousTer : Bool
  deriving DecidableEq

/-- One loop iteration of parse_pdb.  A LINK record whose sequence-number
field does not parse raises ValueError in the source, which aborts the whole
function; this is the none result. -/
def parse_pdbStep (s : PState) (l : PDBLine) : Option PState :=
  match l with
  | .atomRec _ _ =>
      let i := s.i + 1
      let j := if s.previousTer then s.j + 2 else s.j + 1
      some { s with i := i, j := j, d := s.d ++ [(i, j)], previousTer := false }
  | .terRec => some { s with previousTer := true }
  | .modresRec resn => some { s with modres := insert resn s.modres }
  | .linkRec c1 i1 ch1 p1 c2 i2 ch2 p2 =>
      match pyInt p1, pyInt p2 with
      | some pos1, some pos2 =>
          some { s with covalent :=
                   s.covalent ++ [⟨i1, ch1, pos1, c1, i2, ch2, pos2, c2⟩] }
      | _, _ => none
  | .otherRec => some s

/-- Loop of parse_pdb over the line list; a raised exception (none from a
step) propagates immediately, discarding all state. -/
def parse_pdbAux : PState → List PDBLine → Option PState
  | s, [] => some s
  | s, l :: ls =>
      match parse_pdbStep s l with
      | some s1 => parse_pdbAux s1 ls
      | none => none

/-- parse_pdb from the source: returns (d, modres, covalent) on success,
none when a LINK record with a malformed numeric field raised. -/
def parse_pdb (lines : List PDBLine) : Option (List (Nat × Nat) × Finset String × List Covlinkage) :=
  (parse_pdbAux ⟨0, 0, [], ∅, [], false⟩ lines).map (fun s => (s.d, s.modres, s.covalent))

/-- Loop of get_altconf_atoms: for every ATOM/HETATM line the source first
evaluates int(line[6:11]) (so a malformed serial raises even on a
primary-conformer line, modelled as none), normalizes a blank
alternate-location code to 'A', and appends the serial when the code is not
'A'. -/
def get_altconf_atomsAux : List Int → List PDBLine → Option (List Int)
  | acc, [] => some acc
  | acc, l :: ls =>
      match l with
      | .atomRec serialField altlocChar =>
          match pyInt serialField with
          | some atomid =>
              let location := if altlocChar = ' ' then 'A' else altlocChar
              if location ≠ 'A' then get_altconf_atomsAux (acc ++ [atomid]) ls
              else get_altconf_atomsAux acc ls
          | none => none
      | _ => get_altconf_atomsAux acc ls

/-- get_altconf_atoms from the source. -/
def get_altconf_atoms (f : List PDBLine) : Option (List Int) :=
  get_altconf_atomsAux [] f

/-- Modelled from the spec's words, as the refinement target of the claim
about the alternate-conformation filter: the continuous atom-record indices
(1-based, counting ATOM/HETATM records in file order) of the records whose
alternate-location code is present and not primary, blank normalized
to 'A'. -/
def altconfContinuousSpecAux : Nat → List PDBLine → List Nat
  | _, [] => []
  | n, l :: ls =>
      match l with
      | .atomRec _ altlocChar =>
          let location := if altlocChar = ' ' then 'A' else altlocChar
          if location ≠ 'A' then (n + 1) :: altconfContinuousSpecAux (n + 1) ls
          else altconfContinuousSpecAux (n + 1) ls
      | _ => altconfContinuousSpecAux n ls

/-- Continuous-index reading of the alternate-conformation filter, per the
spec's words (see altconfContinuousSpecAux). -/
def altconfContinuousSpec (f : List PDBLine) : List Nat :=
  altconfContinuousSpecAux 0 f

/-- Result of a Python call: a returned value or a raised exception
(IndexError, ValueError, ...). -/
inductive PyResult (α : Type) where
  | ok : α → PyResult α
  | exn : PyResult α
  deriving DecidableEq

/-- euclidean3d from the source.  The guard reproduces the source's operator
precedence exactly: `not len(v1) == 3 and len(v2) == 3` parses as
(¬ v1.length = 3) ∧ v2.length = 3, the only case in which the sentinel None
is returned.  Otherwise the source computes
math.sqrt((v1[0]-v2[0])**2 + (v1[1]-v2[1])**2 + (v1[2]-v2[2])**2); to stay
in exact arithmetic this embedding returns the radicand of that square root
(math.sqrt is injective and strictly monotone on nonnegative reals, so
equalities and order comparisons of distances are mirrored faithfully by the
radicands).  A component access past the end of a list is a raised
IndexError, modelled as exn. -/
def euclidean3d (v1 v2 : List ℚ) : PyResult (Option ℚ) :=
  if ¬ v1.length = 3 ∧ v2.length = 3 then .ok none
  else
    match v1[0]?, v1[1]?, v1[2]?, v2[0]?, v2[1]?, v2[2]? with
    | some a, some b, some c, some x, some y, some z =>
        .ok (some ((a - x) ^ 2 + (b - y) ^ 2 + (c - z) ^ 2))
    | _, _, _, _, _, _ => .exn

/-- vector from the source: None on a length mismatch, otherwise the
component-wise difference p2 - p1. -/
def vector (p1 p2 : List ℚ) : Option (List ℚ) :=
  if p1.length ≠ p2.length then none
  else some ((List.zip p1 p2).map (fun q => q.2 - q.1))

/-- np.dot on two one-dimensional arrays: the sum of component-wise products;
numpy raises on a length mismatch, modelled as none. -/
def npDot (v1 v2 : List ℚ) : Option ℚ :=
  if v1.length = v2.length then some (((List.zip v1 v2).map (fun q => q.1 * q.2)).sum)
  else none

/-- projection from the source.  Note that in the source `pnormal1 + ppoint`
and `pnormal2 + ppoint` CONCATENATE two Python lists, and euclidean3d then
reads only components 0..2 of the concatenation, i.e. pnormal1 (resp.
pnormal2) itself; the two distances are therefore from tpoint to the tips of
the normals taken as absolute positions.  They are compared here through the
radicands returned by the euclidean3d embedding, which orders exactly as the
square roots do.  In ℚ the division sn / sd is total (x / 0 = 0); in the
source a zero normal yields nan/inf numpy arithmetic, but every theorem
below assumes a non-zero normal.  none models a raised exception. -/
def projection (pnormal1 ppoint tpoint : List ℚ) : Option (List ℚ) :=
  let pnormal2 := pnormal1.map (fun coo => -coo)
  match euclidean3d tpoint (pnormal1 ++ ppoint), euclidean3d tpoint (pnormal2 ++ ppoint) with
  | .ok (some d1), .ok (some d2) =>
      let pnormal := if d1 < d2 then pnormal1 else pnormal2
      match vector ppoint tpoint with
      | some v =>
          match npDot pnormal v, npDot pnormal pnormal with
          | some dnv, some sd =>
              let sn := -dnv
              let sb := sn / sd
              some ((List.zip tpoint (pnormal.map (fun pn => sb * pn))).map
                      (fun q => q.1 + q.2))
          | _, _ => none
      | none => none
  | _, _ => none

/-- BioLip artifact list from the source (is_biolip_artifact), verbatim. -/
def biolipArtifactList : List String :=
  ["ACE", "HEX", "TMA", "SOH", "P25", "CCN", "PR", "PTN", "NO3", "TCN", "BU1", "BCN", "CB3", 
   "HCS", "NBN", "SO2", "MO6", "MOH", "CAC", "MLT", "KR", "6PH", "MOS", "UNL", "MO3", "SR", 
   "CD3", "PB", "ACM", "LUT", "PMS", "OF3", "SCN", "DHB", "E4N", "13P", "3PG", "CYC", "NC", 
   "BEN", "NAO", "PHQ", "EPE", "BME", "TB", "ETE", "EU", "OES", "EAP", "ETX", "BEZ", "5AD", 
   "OC2", "OLA", "GD3", "CIT", "DVT", "OC6", "MW1", "OC3", "SRT", "LCO", "BNZ", "PPV", "STE", 
   "PEG", "RU", "PGE", "MPO", "B3P", "OGA", "IPA", "LU", "EDO", "MAC", "9PE", "IPH", "MBN", 
   "C1O", "1PE", "YF3", "PEF", "GD", "8PE", "DKA", "RB", "YB", "GGD", "SE4", "LHG", "SMO", "DGD", 
   "CMO", "MLI", "MW2", "DTT", "DOD", "7PH", "PBM", "AU", "FOR", "PSC", "TG1", "KAI", "1PG", 
   "DGA", "IR", "PE4", "VO4", "ACN", "AG", "MO4", "OCL", "6UL", "CHT", "RHD", "CPS", "IR3", 
   "OC4", "MTE", "HGC", "CR", "PC1", "HC4", "TEA", "BOG", "PEO", "PE5", "144", "IUM", "LMG", 
   "SQU", "MMC", "GOL", "NVP", "AU3", "3PH", "PT4", "PGO", "ICT", "OCM", "BCR", "PG4", "L4P", 
   "OPC", "OXM", "SQD", "PQ9", "BAM", "PI", "PL9", "P6G", "IRI", "15P", "MAE", "MBO", "FMT", 
   "L1P", "DUD", "PGV", "CD1", "P33", "DTU", "XAT", "CD", "THE", "U1", "NA", "MW3", "BHG", "Y1", 
   "OCT", "BET", "MPD", "HTO", "IBM", "D01", "HAI", "HED", "CAD", "CUZ", "TLA", "SO4", "OC5", 
   "ETF", "MRD", "PT", "PHB", "URE", "MLA", "TGL", "PLM", "NET", "LAC", "AUC", "UNX", "GA", 
   "DMS", "MO2", "LA", "NI", "TE", "THJ", "NHE", "HAE", "MO1", "DAO", "3PE", "LMU", "DHJ", "FLC", 
   "SAL", "GAI", "ORO", "HEZ", "TAM", "TRA", "NEX", "CXS", "LCP", "HOH", "OCN", "PER", "ACY", 
   "MH2", "ARS", "12P", "L3P", "PUT", "IN", "CS", "NAW", "SB", "GUN", "SX", "CON", "C2O", "EMC", 
   "BO4", "BNG", "MN5", "__O", "K", "CYN", "H2S", "MH3", "YT3", "P22", "KO4", "1AG", "CE", "IPL", 
   "PG6", "MO5", "F09", "HO", "AL", "TRS", "EOH", "GCP", "MSE", "AKR", "NCO", "PO4", "L2P", 
   "LDA", "SIN", "DMI", "SM", "DTD", "SGM", "DIO", "PPI", "DDQ", "DPO", "HCA", "CO5", "PD", "OS", 
   "OH", "NA6", "NAG", "W", "ENC", "NA5", "LI1", "P4C", "GLV", "DMF", "ACT", "BTB", "6PL", "BGL", 
   "OF1", "N8E", "LMT", "THM", "EU3", "PGR", "NA2", "FOL", "543", "_CP", "PEK", "NSP", "PEE", 
   "OCO", "CHD", "CO2", "TBU", "UMQ", "MES", "NH4", "CD5", "HTG", "DEP", "OC1", "KDO", "2PE", 
   "PE3", "IOD", "NDG", "CL", "HG", "F", "XE", "TL", "BA", "LI", "BR", "TAU", "TCA", "SPD", 
   "SPM", "SAR", "SUC", "PAM", "SPH", "BE7", "P4G", "OLC", "OLB", "LFA", "D10", "D12", "DD9", 
   "HP6", "R16", "PX4", "TRD", "UND", "FTT", "MYR", "RG1", "IMD", "DMN", "KEN", "C14", "UPL", 
   "CMJ", "ULI", "MYS", "TWT", "M2M", "P15", "PG0", "PEU", "AE3", "TOE", "ME2", "PE8", "6JZ", 
   "7PE", "P3G", "7PG", "PG5", "16P", "XPE", "PGF", "AE4", "7E8", "7E9", "MVC", "TAR", "DMR", 
   "LMR", "NER", "02U", "NGZ", "LXB", "A2G", "BM3", "NAA", "NGA", "LXZ", "PX6", "PA8", "LPP", 
   "PX2", "MYY", "PX8", "PD7", "XP4", "XPA", "PEV", "6PE", "PEX", "PEH", "PTY", "YB2", "PGT", 
   "CN3", "AGA", "DGG", "CD4", "CN6", "CDL", "PG8", "MGE", "DTV", "L44", "L2C", "4AG", "B3H", 
   "1EM", "DDR", "I42", "CNS", "PC7", "HGP", "PC8", "HGX", "LIO", "PLD", "PC2", "PCF", "MC3", 
   "P1O", "PLC", "PC6", "HSH", "BXC", "HSG", "DPG", "2DP", "POV", "PCW", "GVT", "CE9", "CXE", 
   "C10", "CE1", "SPJ", "SPZ", "SPK", "SPW", "HT3", "HTH", "2OP", "3NI", "BO3", "DET", "D1D", 
   "SWE", "SOG"]
/-- Uppercasing of an ASCII identifier, as Python str.upper() on the residue
identifiers compared here. -/
def pyUpper (s : String) : String :=
  String.mk (s.data.map Char.toUpper)

/-- is_biolip_artifact from the source: case-insensitive membership in the
BioLip artifact list. -/
def is_biolip_artifact (hetid : String) : Bool :=
  decide (pyUpper hetid ∈ biolipArtifactList)

/-- Data of an OpenBabel residue object that getligs reads: GetName,
GetChain, GetNum. -/
structure OBResidue where
  name : String
  chain : String
  num : Int
  deriving DecidableEq

/-- Artifact list built by getligs (lines 475-480): the distinct residue
names of the surviving candidate pool (unique_ligs, a Python set, modelled
as dedup) that are BioLiP artifacts and occur at least 10 times in the
pool. -/
def getligsArtifacts (all_res : List OBResidue) : List String :=
  ((all_res.map OBResidue.name).dedup).filter
    (fun ulig => is_biolip_artifact ulig &&
      decide (10 ≤ (all_res.map OBResidue.name).count ulig))

/-- Artifact-frequency filter of getligs (line 481): keep the residues whose
name is not in the artifact list. -/
def getligsArtifactFilter (all_res : List OBResidue) : List OBResidue :=
  all_res.filter (fun a => !decide (a.name ∈ getligsArtifacts all_res))

/-- Loop state of cluster_doubles: the location hashtable (element to
cluster index) and the cluster list. -/
structure CDState (α : Type) where
  location : α → Option Nat
  clusters : List (Finset α)

/-- Overwriting update of the location table, as Python dict assignment. -/
def updateLoc {α : Type} [DecidableEq α] (f : α → Option Nat) (x : α) (v : Nat) :
    α → Option Nat :=
  fun y => if y = x then some v else f y

/-- Rebuild of the location index after a merge (source lines 341-344):
location is cleared and refilled by iterating the clusters in order; the
inner per-cluster loop order is irrelevant (every element of one cluster
receives the same index), so it is a fold over the indexed cluster list,
later clusters overwriting earlier ones. -/
def rebuildLocation {α : Type} [DecidableEq α] (clusters : List (Finset α)) :
    α → Option Nat :=
  clusters.enum.foldl (fun loc p => fun y => if y ∈ p.2 then some p.1 else loc y)
    (fun _ => none)

/-- One iteration of cluster_doubles over a double t = (a, b), translated
clause by clause from the source (lines 333-358).  Cluster indices stored in
location are always valid positions into the cluster list in every reachable
state, so the source's clusters[location[x]] reads are rendered with getD ∅.
If a and b already sit in distinct clusters, cluster location[a] absorbs
cluster location[b] and the list is re-sliced as
clusters[: location[a]+1] + clusters[location[b]+1 :] (exactly the source's
slice arithmetic, including its behaviour when the two indices are not
adjacent), after which location is rebuilt.  Otherwise the three sequential
ifs of the source run in order on the evolving state: a's cluster absorbs b,
then (on the updated table) b's cluster absorbs a, then a fresh two-element
cluster is appended when neither end is located. -/
def cdStep {α : Type} [DecidableEq α] (s : CDState α) (t : α × α) : CDState α :=
  let a := t.1
  let b := t.2
  match s.location a, s.location b with
  | some la, some lb =>
      if la ≠ lb then
        let merged := s.clusters.set la ((s.clusters.getD la ∅) ∪ (s.clusters.getD lb ∅))
        let clusters := merged.take (la + 1) ++ merged.drop (lb + 1)
        ⟨rebuildLocation clusters, clusters⟩
      else s
  | _, _ =>
      let s1 : CDState α :=
        match s.location a with
        | some la => ⟨updateLoc s.location b la,
                      s.clusters.set la (insert b (s.clusters.getD la ∅))⟩
        | none => s
      let s2 : CDState α :=
        match s1.location b with
        | some lb => ⟨updateLoc s1.location a lb,
                      s1.clusters.set lb (insert a (s1.clusters.getD lb ∅))⟩
        | none => s1
      if ¬ ((s2.location b).isSome ∧ (s2.location a).isSome) then
        ⟨updateLoc (updateLoc s2.location a s2.clusters.length) b s2.clusters.length,
         s2.clusters ++ [{a, b}]⟩
      else s2

/-- cluster_doubles from the source: fold the step over the double list
starting from an empty table and no clusters; the source's final
map(tuple, clusters) only changes the container type, so the clusters are
returned as finite sets. -/
def cluster_doubles {α : Type} [DecidableEq α] (double_list : List (α × α)) :
    List (Finset α) :=
  (double_list.foldl cdStep ⟨fun _ => none, []⟩).clusters

/-- Residue key (name, chain, sequence number) as used by getligs for
all_res_dict and the link endpoints. -/
abbrev ResidueKey := String × String × Int

/-- Kmer cluster assembly of getligs (lines 496-511), restricted to residue
keys: cluster the filtered link doubles; if no cluster was produced, every
candidate becomes a singleton; otherwise the clusters are emitted first and
every candidate contained in none of them is appended as a singleton, in
candidate order (all_res_dict iterates in insertion order). -/
def res_kmer_keys {α : Type} [DecidableEq α] (cands : List α)
    (ligdoubles : List (α × α)) : List (Finset α) :=
  let kmers := cluster_doubles ligdoubles
  if kmers = [] then cands.map (fun k => {k})
  else kmers ++
    (cands.filter (fun k => kmers.all (fun cl => !decide (k ∈ cl)))).map (fun k => {k})

/-! Theorems -/

/-- C1: the claimed partition invariant fails on the code.  With candidates
(LG1,A,1), (LG2,A,2), (LG3,A,3), (LG4,A,4) and covalent-link pairs
(LG1,LG2), (LG3,LG4), (LG3,LG1) — all ends candidates — the merge step of
cluster_doubles re-slices the cluster list as
clusters[: location[a]+1] + clusters[location[b]+1 :], which for
location[a] = 1, location[b] = 0 keeps the stale absorbed cluster and
duplicates the merged one; the emitted kmer clusters are then
[ (LG1,LG2), (LG1..LG4), (LG1..LG4) ] and candidate (LG1,A,1) appears in
three of them instead of exactly one. -/
theorem res_kmer_keys_violates_partition :
    ((res_kmer_keys
        [(("LG1", "A", 1) : ResidueKey), ("LG2", "A", 2), ("LG3", "A", 3), ("LG4", "A", 4)]
        [((("LG1", "A", 1) : ResidueKey), (("LG2", "A", 2) : ResidueKey)),
         (("LG3", "A", 3), ("LG4", "A", 4)),
         (("LG3", "A", 3), ("LG1", "A", 1))]).countP
      (fun cl => decide ((("LG1", "A", 1) : ResidueKey) ∈ cl))) = 3 := by decide

/-- C3: evaluation at a failing input.  The second point [1, 0, 0, 5] is not
3-dimensional, yet euclidean3d neither returns its None sentinel nor raises:
the guard `not len(v1) == 3 and len(v2) == 3` parses as
(¬ len v1 = 3) ∧ len v2 = 3, which is false here, so the source computes
math.sqrt(1) = 1.0 from the truncated first three components (the embedding
returns the radicand 1). -/
theorem euclidean3d_truncates_instead_of_failing :
    ([(1 : ℚ), 0, 0, 5].length = 3 → False) ∧
    euclidean3d [0, 0, 0] [1, 0, 0, 5] = PyResult.ok (some 1) := by
  refine ⟨by decide, ?_⟩
  norm_num [euclidean3d]

/-- C2: counterexample to the claim as stated.  On a single ATOM record with
serial-number field "    5" and alternate-location code 'B', the filter
returns [5] — the fixed-column serial number — whereas the continuous
atom-record index of that record (1-based in file order, as the claim
demands) is 1. -/
theorem get_altconf_atoms_serial_not_continuous :
    get_altconf_atoms [PDBLine.atomRec "    5" 'B'] = some [5] ∧
    altconfContinuousSpec [PDBLine.atomRec "    5" 'B'] = [1] ∧
    (5 : Int) ≠ (1 : Nat) := by decide

/-- C8: a LINK record whose sequence-number field is non-numeric makes
parse_pdb raise ValueError, aborting reconciliation of the whole file: no
partial (map, modified-residue set, link list) result is returned and the
record is not skipped. -/
theorem parse_pdb_malformed_link_aborts (lines : List PDBLine)
    (c1 i1 ch1 p1 c2 i2 ch2 p2 : String)
    (hmem : PDBLine.linkRec c1 i1 ch1 p1 c2 i2 ch2 p2 ∈ lines)
    (hbad : pyInt p1 = none ∨ pyInt p2 = none) :
    parse_pdb lines = none := by
  have key : ∀ (ls : List PDBLine) (s : PState),
      PDBLine.linkRec c1 i1 ch1 p1 c2 i2 ch2 p2 ∈ ls → parse_pdbAux s ls = none := by
    intro ls
    induction ls with
    | nil => intro s h; simp at h
    | cons l ls ih =>
        intro s h
        rcases List.mem_cons.mp h with h1 | h2
        · have hstep : parse_pdbStep s l = none := by
            rw [← h1]
            rcases hbad with hb | hb
            · simp [parse_pdbStep, hb]
            · cases hp1 : pyInt p1 <;> simp [parse_pdbStep, hp1, hb]
          simp [parse_pdbAux, hstep]
        · cases hstep : parse_pdbStep s l with
          | none => simp [parse_pdbAux, hstep]
          | some s1 =>
              simp only [parse_pdbAux, hstep]
              exact ih s1 h2
  simp [parse_pdb, key lines _ hmem]

/-- Witness for parse_pdb_malformed_link_aborts at a concrete file: one atom
record followed by a LINK record whose first sequence-number field is
"12ab". -/
theorem parse_pdb_malformed_link_aborts_witness :
    PDBLine.linkRec "" "NAG" "A" "12ab" "" "NAG" "A" "  14"
        ∈ [PDBLine.atomRec "    1" ' ',
           PDBLine.linkRec "" "NAG" "A" "12ab" "" "NAG" "A" "  14"] ∧
    parse_pdb [PDBLine.atomRec "    1" ' ',
               PDBLine.linkRec "" "NAG" "A" "12ab" "" "NAG" "A" "  14"] = none :=
  ⟨by decide,
   parse_pdb_malformed_link_aborts _ "" "NAG" "A" "12ab" "" "NAG" "A" "  14"
     (by decide) (Or.inl (by decide))⟩

/-- Check that the serial-number field of an ATOM/HETATM line is numeric
(int() succeeds on it); vacuously true for other record kinds. -/
def serialOk : PDBLine → Bool
  | .atomRec sf _ => (pyInt sf).isSome
  | _ => true

/-- C2 (amended): on line sequences whose ATOM/HETATM serial-number fields
are numeric, get_altconf_atoms returns, in file order, the fixed-column
serial numbers (native atom ids, as later consumed against the
continuous-to-native map in getligs) of exactly the records whose
alternate-location code is present and not primary, blank normalized
to 'A' — not the continuous record indices. -/
theorem get_altconf_atoms_eq_nonprimary_serials (lines : List PDBLine)
    (hser : ∀ l ∈ lines, serialOk l = true) :
    get_altconf_atoms lines =
      some (lines.filterMap (fun l =>
        match l with
        | .atomRec sf al => if (if al = ' ' then 'A' else al) ≠ 'A' then pyInt sf else none
        | _ => none)) := by
  have key : ∀ (ls : List PDBLine) (acc : List Int),
      (∀ l ∈ ls, serialOk l = true) →
      get_altconf_atomsAux acc ls =
        some (acc ++ ls.filterMap (fun l =>
          match l with
          | .atomRec sf al => if (if al = ' ' then 'A' else al) ≠ 'A' then pyInt sf else none
          | _ => none)) := by
    intro ls
    induction ls with
    | nil => intro acc _; simp [get_altconf_atomsAux]
    | cons l ls ih =>
        intro acc h
        have htail : ∀ x ∈ ls, serialOk x = true :=
          fun x hx => h x (List.mem_cons_of_mem _ hx)
        cases l with
        | atomRec sf al =>
            have hs : (pyInt sf).isSome = true := by
              simpa [serialOk] using h _ (List.mem_cons_self _ _)
            obtain ⟨v, hv⟩ := Option.isSome_iff_exists.mp hs
            by_cases hal : (if al = ' ' then 'A' else al) ≠ 'A'
            · simp only [get_altconf_atomsAux, hv, hal, if_pos, List.filterMap_cons]
              rw [ih (acc ++ [v]) htail]
              simp [hv, hal]
            · simp only [get_altconf_atomsAux, hv, hal, List.filterMap_cons]
              rw [ih acc htail]
              simp [hv, hal]
        | terRec =>
            simp only [get_altconf_atomsAux, List.filterMap_cons]
            exact ih acc htail
        | modresRec r =>
            simp only [get_altconf_atomsAux, List.filterMap_cons]
            exact ih acc htail
        | linkRec c1 i1 ch1 p1 c2 i2 ch2 p2 =>
            simp only [get_altconf_atomsAux, List.filterMap_cons]
            exact ih acc htail
        | otherRec =>
            simp only [get_altconf_atomsAux, List.filterMap_cons]
            exact ih acc htail
  simpa [get_altconf_atoms] using key lines [] hser

/-- Witness for get_altconf_atoms_eq_nonprimary_serials on a two-record
file: a primary-conformer atom with serial 1 and a B-conformer atom with
serial 7. -/
theorem get_altconf_atoms_eq_nonprimary_serials_witness :
    (∀ l ∈ [PDBLine.atomRec "    1" ' ', PDBLine.atomRec "    7" 'B'],
        serialOk l = true) ∧
    get_altconf_atoms [PDBLine.atomRec "    1" ' ', PDBLine.atomRec "    7" 'B'] =
      some ([PDBLine.atomRec "    1" ' ', PDBLine.atomRec "    7" 'B'].filterMap (fun l =>
        match l with
        | .atomRec sf al => if (if al = ' ' then 'A' else al) ≠ 'A' then pyInt sf else none
        | _ => none)) :=
  ⟨by decide, get_altconf_atoms_eq_nonprimary_serials _ (by decide)⟩

/-- Index-map entries appended by a run of m atom records that starts at
continuous index i0 and native index j0, each record advancing both
counters by one. -/
def entriesFrom : Nat → Nat → Nat → List (Nat × Nat)
  | _, _, 0 => []
  | i0, j0, m + 1 => (i0 + 1, j0 + 1) :: entriesFrom (i0 + 1) (j0 + 1) m

lemma mem_entriesFrom (m : Nat) : ∀ (i0 j0 : Nat) (p : Nat × Nat),
    p ∈ entriesFrom i0 j0 m ↔ ∃ t, t < m ∧ p = (i0 + t + 1, j0 + t + 1) := by
  induction m with
  | zero => intro i0 j0 p; simp [entriesFrom]
  | succ n ih =>
      intro i0 j0 p
      simp only [entriesFrom, List.mem_cons, ih]
      constructor
      · rintro (rfl | ⟨t, ht, rfl⟩)
        · exact ⟨0, by omega, by simp⟩
        · refine ⟨t + 1, by omega, ?_⟩
          simp only [Prod.mk.injEq]
          omega
      · rintro ⟨t, ht, rfl⟩
        cases t with
        | zero => left; simp
        | succ u =>
            right
            refine ⟨u, by omega, ?_⟩
            simp only [Prod.mk.injEq]
            omega

lemma parse_pdbAux_append (xs ys : List PDBLine) :
    ∀ s : PState, parse_pdbAux s (xs ++ ys) =
      (parse_pdbAux s xs).bind (fun s1 => parse_pdbAux s1 ys) := by
  induction xs with
  | nil => intro s; simp [parse_pdbAux]
  | cons l ls ih =>
      intro s
      cases hstep : parse_pdbStep s l with
      | none => simp [parse_pdbAux, hstep]
      | some s1 => simp [parse_pdbAux, hstep, ih]

lemma parse_pdbAux_atomBlock (blk : List PDBLine) :
    ∀ s : PState, (∀ l ∈ blk, l.isAtom = true) → s.previousTer = false →
      parse_pdbAux s blk =
        some { i := s.i + blk.length, j := s.j + blk.length, d := s.d ++ entriesFrom s.i s.j blk.length, modres := s.modres, covalent := s.covalent, previousTer := false } := by
  induction blk with
  | nil =>
      intro s _ hprev
      simp only [parse_pdbAux, entriesFrom, List.length_nil, Nat.add_zero, List.append_nil]
      cases s
      simp_all
  | cons l ls ih =>
      intro s hall hprev
      cases l with
      | atomRec sf al =>
          have hstep : parse_pdbStep s (.atomRec sf al) = some { s with i := s.i + 1, j := s.j + 1, d := s.d ++ [(s.i + 1, s.j + 1)], previousTer := false } := by
            simp [parse_pdbStep, hprev]
          simp only [parse_pdbAux, hstep]
          rw [ih _ (fun x hx => hall x (List.mem_cons_of_mem _ hx)) rfl]
          simp only [entriesFrom, List.length_cons, Option.some.injEq, PState.mk.injEq]
          refine ⟨by omega, by omega, by simp [List.append_assoc], trivial, trivial, trivial⟩
      | terRec => exact absurd (hall _ (List.mem_cons_self _ _)) (by simp [PDBLine.isAtom])
      | modresRec r => exact absurd (hall _ (List.mem_cons_self _ _)) (by simp [PDBLine.isAtom])
      | linkRec c1 i1 ch1 p1 c2 i2 ch2 p2 =>
          exact absurd (hall _ (List.mem_cons_self _ _)) (by simp [PDBLine.isAtom])
      | otherRec => exact absurd (hall _ (List.mem_cons_self _ _)) (by simp [PDBLine.isAtom])

lemma parse_pdbAux_terRun : ∀ (k : Nat), 1 ≤ k → ∀ s : PState,
    parse_pdbAux s (List.replicate k PDBLine.terRec) =
      some { s with previousTer := true }
  | 0, h, _ => by omega
  | 1, _, s => by simp [List.replicate, parse_pdbAux, parse_pdbStep]
  | (k + 2), _, s => by
      have h2 := parse_pdbAux_terRun (k + 1) (by omega) { s with previousTer := true }
      simp only [List.replicate, parse_pdbAux, parse_pdbStep] at h2 ⊢
      exact h2

/-- Core computation shared by the terminator-gap claims: a block of atom
records, then k consecutive TER records (k at least 1), then a nonempty
block of atom records.  The resulting index map is the identity on the first
block and continuous+1 on the second, independently of k. -/
lemma parse_pdb_gap_core (A B : List PDBLine) (k : Nat)
    (hA : ∀ l ∈ A, l.isAtom = true) (hB : ∀ l ∈ B, l.isAtom = true)
    (hk : 1 ≤ k) (hBne : B ≠ []) :
    parse_pdb (A ++ (List.replicate k PDBLine.terRec ++ B)) =
      some (entriesFrom 0 0 A.length ++ entriesFrom A.length (A.length + 1) B.length,
            ∅, []) := by
  cases B with
  | nil => exact absurd rfl hBne
  | cons b B1 =>
      cases b with
      | atomRec sf al =>
          unfold parse_pdb
          rw [parse_pdbAux_append,
              parse_pdbAux_atomBlock A ⟨0, 0, [], ∅, [], false⟩ hA rfl]
          simp only [Option.some_bind]
          rw [parse_pdbAux_append, parse_pdbAux_terRun k hk _]
          simp only [Option.some_bind]
          have hstep : parse_pdbStep { i := 0 + A.length, j := 0 + A.length, d := [] ++ entriesFrom 0 0 A.length, modres := ∅, covalent := [], previousTer := true } (.atomRec sf al) = some { i := A.length + 1, j := A.length + 2, d := entriesFrom 0 0 A.length ++ [(A.length + 1, A.length + 2)], modres := ∅, covalent := [], previousTer := false } := by
            simp [parse_pdbStep]
          simp only [parse_pdbAux, hstep]
          rw [parse_pdbAux_atomBlock B1 _ (fun x hx => hB x (List.mem_cons_of_mem _ hx)) rfl]
          have h12 : A.length + 1 + 1 = A.length + 2 := by omega
          simp only [List.length_cons, entriesFrom, h12]
          simp [List.append_assoc]
      | terRec => exact absurd (hB _ (List.mem_cons_self _ _)) (by simp [PDBLine.isAtom])
      | modresRec r => exact absurd (hB _ (List.mem_cons_self _ _)) (by simp [PDBLine.isAtom])
      | linkRec c1 i1 ch1 p1 c2 i2 ch2 p2 =>
          exact absurd (hB _ (List.mem_cons_self _ _)) (by simp [PDBLine.isAtom])
      | otherRec => exact absurd (hB _ (List.mem_cons_self _ _)) (by simp [PDBLine.isAtom])

/-- C4: with exactly one chain-terminator record between two blocks of
ATOM/HETATM records, the index map is the identity on the first block, the
first atom after the terminator maps to its continuous index plus one, and
the one-slot gap persists for every subsequent atom. -/
theorem parse_pdb_single_ter_gap (A B : List PDBLine)
    (hA : ∀ l ∈ A, l.isAtom = true) (hB : ∀ l ∈ B, l.isAtom = true)
    (_hAne : A ≠ []) (hBne : B ≠ [])
    (d : List (Nat × Nat)) (m : Finset String) (c : List Covlinkage)
    (hp : parse_pdb (A ++ PDBLine.terRec :: B) = some (d, m, c)) :
    d = entriesFrom 0 0 A.length ++ entriesFrom A.length (A.length + 1) B.length ∧
    ∀ p ∈ d, p.2 = if p.1 ≤ A.length then p.1 else p.1 + 1 := by
  have hcore := parse_pdb_gap_core A B 1 hA hB (by omega) hBne
  have heq : A ++ (List.replicate 1 PDBLine.terRec ++ B) = A ++ PDBLine.terRec :: B := by
    simp [List.replicate]
  rw [heq] at hcore
  rw [hcore] at hp
  simp only [Option.some.injEq, Prod.mk.injEq] at hp
  obtain ⟨hd, -, -⟩ := hp
  refine ⟨hd.symm, ?_⟩
  intro p hmem
  rw [← hd] at hmem
  rcases List.mem_append.mp hmem with h | h
  · rcases (mem_entriesFrom A.length 0 0 p).mp h with ⟨t, ht, rfl⟩
    dsimp only
    split_ifs <;> omega
  · rcases (mem_entriesFrom B.length A.length (A.length + 1) p).mp h with ⟨t, ht, rfl⟩
    dsimp only
    split_ifs <;> omega

/-- Witness for parse_pdb_single_ter_gap: two atoms, one TER, two atoms. -/
theorem parse_pdb_single_ter_gap_witness :
    parse_pdb
        [PDBLine.atomRec "    1" ' ', PDBLine.atomRec "    2" ' ', PDBLine.terRec,
         PDBLine.atomRec "    4" ' ', PDBLine.atomRec "    5" ' '] =
      some ([(1, 1), (2, 2), (3, 4), (4, 5)], ∅, []) ∧
    ([(1, 1), (2, 2), (3, 4), (4, 5)] =
      entriesFrom 0 0 2 ++ entriesFrom 2 3 2 ∧
    ∀ p ∈ [((1 : Nat), (1 : Nat)), (2, 2), (3, 4), (4, 5)],
      p.2 = if p.1 ≤ 2 then p.1 else p.1 + 1) := by
  refine ⟨by decide, ?_⟩
  have h := parse_pdb_single_ter_gap
    [PDBLine.atomRec "    1" ' ', PDBLine.atomRec "    2" ' ']
    [PDBLine.atomRec "    4" ' ', PDBLine.atomRec "    5" ' ']
    (by decide) (by decide) (by decide) (by decide)
    [(1, 1), (2, 2), (3, 4), (4, 5)] ∅ [] (by decide)
  simpa using h

/-- C10: any run of k at least 2 consecutive chain-terminator records between
two atom blocks behaves exactly like a single terminator: the previous_ter
flag is boolean, so the native index of the first atom after the run is the
native index of the atom before it plus 2, and the resulting index map does
not depend on k. -/
theorem parse_pdb_consecutive_ters_collapse (A B : List PDBLine) (k : Nat)
    (hA : ∀ l ∈ A, l.isAtom = true) (hB : ∀ l ∈ B, l.isAtom = true)
    (hAne : A ≠ []) (hBne : B ≠ []) (hk : 2 ≤ k)
    (d : List (Nat × Nat)) (m : Finset String) (c : List Covlinkage)
    (hp : parse_pdb (A ++ (List.replicate k PDBLine.terRec ++ B)) = some (d, m, c)) :
    d = entriesFrom 0 0 A.length ++ entriesFrom A.length (A.length + 1) B.length ∧
    (A.length, A.length) ∈ d ∧ (A.length + 1, A.length + 2) ∈ d := by
  have hcore := parse_pdb_gap_core A B k hA hB (by omega) hBne
  rw [hcore] at hp
  simp only [Option.some.injEq, Prod.mk.injEq] at hp
  obtain ⟨hd, -, -⟩ := hp
  have hAlen : 1 ≤ A.length := List.length_pos.mpr hAne
  have hBlen : 1 ≤ B.length := List.length_pos.mpr hBne
  refine ⟨hd.symm, ?_, ?_⟩
  · rw [← hd]
    exact List.mem_append.mpr (Or.inl ((mem_entriesFrom A.length 0 0 _).mpr
      ⟨A.length - 1, by omega, congrArg₂ Prod.mk (by omega) (by omega)⟩))
  · rw [← hd]
    exact List.mem_append.mpr (Or.inr ((mem_entriesFrom B.length A.length (A.length + 1) _).mpr
      ⟨0, by omega, congrArg₂ Prod.mk (by omega) (by omega)⟩))

/-- Witness for parse_pdb_consecutive_ters_collapse: one atom, three TERs,
one atom; the second atom still gets native index 3 = 1 + 2. -/
theorem parse_pdb_consecutive_ters_collapse_witness :
    parse_pdb
        [PDBLine.atomRec "    1" ' ', PDBLine.terRec, PDBLine.terRec, PDBLine.terRec,
         PDBLine.atomRec "    5" ' '] = some ([(1, 1), (2, 3)], ∅, []) ∧
    ([(1, 1), (2, 3)] = entriesFrom 0 0 1 ++ entriesFrom 1 2 1 ∧
     ((1 : Nat), (1 : Nat)) ∈ [((1 : Nat), (1 : Nat)), (2, 3)] ∧
     ((2 : Nat), (3 : Nat)) ∈ [((1 : Nat), (1 : Nat)), (2, 3)]) := by
  refine ⟨by decide, ?_⟩
  have h := parse_pdb_consecutive_ters_collapse
    [PDBLine.atomRec "    1" ' '] [PDBLine.atomRec "    5" ' '] 3
    (by decide) (by decide) (by decide) (by decide) (by omega)
    [(1, 1), (2, 3)] ∅ [] (by decide)
  simpa using h

lemma parse_pdbAux_terFree_inv :
    ∀ (ls : List PDBLine) (s : PState), (∀ l ∈ ls, l ≠ PDBLine.terRec) →
      s.previousTer = false → s.j = s.i → (∀ p ∈ s.d, p.2 = p.1) →
      ∀ s1, parse_pdbAux s ls = some s1 →
        s1.previousTer = false ∧ s1.j = s1.i ∧ ∀ p ∈ s1.d, p.2 = p.1 := by
  intro ls
  induction ls with
  | nil =>
      intro s _ hpt hji hd s1 hp
      simp only [parse_pdbAux, Option.some.injEq] at hp
      subst hp
      exact ⟨hpt, hji, hd⟩
  | cons l ls ih =>
      intro s h hpt hji hd s1 hp
      have htail : ∀ x ∈ ls, x ≠ PDBLine.terRec :=
        fun x hx => h x (List.mem_cons_of_mem _ hx)
      cases l with
      | atomRec sf al =>
          simp only [parse_pdbAux, parse_pdbStep, hpt, if_neg, Bool.false_eq_true,
            ite_false] at hp
          refine ih _ htail rfl (by simp [hji]) ?_ s1 hp
          intro p hpm
          rcases List.mem_append.mp hpm with hm | hm
          · exact hd p hm
          · simp only [List.mem_singleton] at hm
            subst hm
            simp [hji]
      | terRec => exact absurd rfl (h _ (List.mem_cons_self _ _))
      | modresRec r =>
          simp only [parse_pdbAux, parse_pdbStep] at hp
          exact ih { s with modres := insert r s.modres } htail hpt hji hd s1 hp
      | linkRec c1 i1 ch1 p1 c2 i2 ch2 p2 =>
          cases hp1 : pyInt p1 with
          | none => simp [parse_pdbAux, parse_pdbStep, hp1] at hp
          | some v1 =>
              cases hp2 : pyInt p2 with
              | none => simp [parse_pdbAux, parse_pdbStep, hp1, hp2] at hp
              | some v2 =>
                  simp only [parse_pdbAux, parse_pdbStep, hp1, hp2] at hp
                  exact ih { s with covalent := s.covalent ++ [⟨i1, ch1, v1, c1, i2, ch2, v2, c2⟩] } htail hpt hji hd s1 hp
      | otherRec =>
          simp only [parse_pdbAux, parse_pdbStep] at hp
          exact ih s htail hpt hji hd s1 hp

/-- C5: on any record sequence with no chain-terminator records (and whose
LINK records, if any, parse), the index map built by parse_pdb is the
identity: every ATOM/HETATM record's native index equals its continuous
index. -/
theorem parse_pdb_identity_of_terFree (lines : List PDBLine)
    (hter : ∀ l ∈ lines, l ≠ PDBLine.terRec)
    (d : List (Nat × Nat)) (m : Finset String) (c : List Covlinkage)
    (hp : parse_pdb lines = some (d, m, c)) :
    ∀ p ∈ d, p.2 = p.1 := by
  unfold parse_pdb at hp
  cases haux : parse_pdbAux ⟨0, 0, [], ∅, [], false⟩ lines with
  | none => rw [haux] at hp; simp at hp
  | some s1 =>
      rw [haux] at hp
      simp only [Option.map_some', Option.some.injEq, Prod.mk.injEq] at hp
      have hinv := parse_pdbAux_terFree_inv lines ⟨0, 0, [], ∅, [], false⟩ hter rfl rfl
        (by intro p hpm; simp at hpm) s1 haux
      rw [← hp.1]
      exact hinv.2.2

/-- Witness for parse_pdb_identity_of_terFree: two atoms, a MODRES and a
well-formed LINK record, no TER. -/
theorem parse_pdb_identity_of_terFree_witness :
    (∀ l ∈ [PDBLine.atomRec "    1" ' ', PDBLine.modresRec "MSE",
            PDBLine.atomRec "    2" 'B',
            PDBLine.linkRec "" "NAG" "A" "  12" "" "NAG" "A" "  14"],
        l ≠ PDBLine.terRec) ∧
    ∀ p ∈ [((1 : Nat), (1 : Nat)), (2, 2)], p.2 = p.1 := by
  refine ⟨by decide, ?_⟩
  exact parse_pdb_identity_of_terFree
    [PDBLine.atomRec "    1" ' ', PDBLine.modresRec "MSE",
     PDBLine.atomRec "    2" 'B',
     PDBLine.linkRec "" "NAG" "A" "  12" "" "NAG" "A" "  14"]
    (by decide) [(1, 1), (2, 2)] {"MSE"}
    [⟨"NAG", "A", 12, "", "NAG", "A", 14, ""⟩] (by decide)

/-- C6: for distinct candidates A, B, C, clustering the link list
[(A,B),(B,C)] or [(B,C),(A,B)] yields the single cluster containing exactly
A, B and C; neither order reaches the merge branch, since the second link
always shares exactly one located endpoint with the first. -/
theorem cluster_doubles_chain_single_cluster {α : Type} [DecidableEq α]
    (A B C : α) (hAB : A ≠ B) (hAC : A ≠ C) (hBC : B ≠ C) :
    cluster_doubles [(A, B), (B, C)] = [{A, B, C}] ∧
    cluster_doubles [(B, C), (A, B)] = [{A, B, C}] := by
  constructor
  · simp only [cluster_doubles, List.foldl]
    simp [cdStep, updateLoc, hAB, hAC, hBC, Ne.symm hAB, Ne.symm hAC, Ne.symm hBC]
    ext x
    simp
    tauto
  · simp only [cluster_doubles, List.foldl]
    simp [cdStep, updateLoc, hAB, hAC, hBC, Ne.symm hAB, Ne.symm hAC, Ne.symm hBC]

/-- Witness for cluster_doubles_chain_single_cluster at the natural numbers
0, 1, 2. -/
theorem cluster_doubles_chain_single_cluster_witness :
    ((0 : Nat) ≠ 1 ∧ (0 : Nat) ≠ 2 ∧ (1 : Nat) ≠ 2) ∧
    (cluster_doubles [((0 : Nat), 1), (1, 2)] = [{0, 1, 2}] ∧
     cluster_doubles [((1 : Nat), 2), (0, 1)] = [{0, 1, 2}]) :=
  ⟨⟨by decide, by decide, by decide⟩,
   cluster_doubles_chain_single_cluster 0 1 2 (by decide) (by decide) (by decide)⟩

/-- C7: a residue identifier that is a BioLiP artifact is discarded by the
artifact-frequency filter of getligs if and only if it occurs at least 10
times among the surviving candidates: with fewer than 10 occurrences (in
particular exactly 9) every residue bearing it is retained, with 10 or more
(in particular exactly 10) every residue bearing it is discarded. -/
theorem getligs_artifact_threshold (rs : List OBResidue) (n : String)
    (hart : is_biolip_artifact n = true) :
    ((rs.map OBResidue.name).count n < 10 →
        ∀ r ∈ rs, r.name = n → r ∈ getligsArtifactFilter rs) ∧
    (10 ≤ (rs.map OBResidue.name).count n →
        ∀ r ∈ rs, r.name = n → r ∉ getligsArtifactFilter rs) := by
  have hmem : ∀ m : String, m ∈ getligsArtifacts rs ↔
      m ∈ rs.map OBResidue.name ∧ is_biolip_artifact m = true ∧
        10 ≤ (rs.map OBResidue.name).count m := by
    intro m
    simp [getligsArtifacts, List.mem_filter, List.mem_dedup, and_assoc]
  constructor
  · intro hcount r hr hname
    refine List.mem_filter.mpr ⟨hr, ?_⟩
    simp only [Bool.not_eq_eq_eq_not, Bool.not_true, decide_eq_false_iff_not]
    rw [hname, hmem]
    rintro ⟨-, -, h10⟩
    omega
  · intro hcount r hr hname hin
    have hit := (List.mem_filter.mp hin).2
    simp only [Bool.not_eq_eq_eq_not, Bool.not_true, decide_eq_false_iff_not] at hit
    refine hit ?_
    rw [hname, hmem]
    have hpos : 0 < (rs.map OBResidue.name).count n := by omega
    exact ⟨List.count_pos_iff.mp hpos, hart, hcount⟩

/-- Witness for getligs_artifact_threshold: nine GOL residues are all
retained (the boundary below the threshold). -/
theorem getligs_artifact_threshold_witness :
    is_biolip_artifact "GOL" = true ∧
    (⟨"GOL", "A", 1⟩ : OBResidue) ∈ getligsArtifactFilter
      [⟨"GOL", "A", 1⟩, ⟨"GOL", "A", 2⟩, ⟨"GOL", "A", 3⟩, ⟨"GOL", "A", 4⟩,
       ⟨"GOL", "A", 5⟩, ⟨"GOL", "A", 6⟩, ⟨"GOL", "A", 7⟩, ⟨"GOL", "A", 8⟩,
       ⟨"GOL", "A", 9⟩] :=
  ⟨by decide,
   (getligs_artifact_threshold
       [⟨"GOL", "A", 1⟩, ⟨"GOL", "A", 2⟩, ⟨"GOL", "A", 3⟩, ⟨"GOL", "A", 4⟩,
        ⟨"GOL", "A", 5⟩, ⟨"GOL", "A", 6⟩, ⟨"GOL", "A", 7⟩, ⟨"GOL", "A", 8⟩,
        ⟨"GOL", "A", 9⟩] "GOL" (by decide)).1 (by decide) _ (by decide) rfl⟩

lemma projection_eq (n1 n2 n3 p1 p2 p3 t1 t2 t3 : ℚ) :
    projection [n1, n2, n3] [p1, p2, p3] [t1, t2, t3] =
      some [t1 - (n1 * (t1 - p1) + n2 * (t2 - p2) + n3 * (t3 - p3)) / (n1 ^ 2 + n2 ^ 2 + n3 ^ 2) * n1,
            t2 - (n1 * (t1 - p1) + n2 * (t2 - p2) + n3 * (t3 - p3)) / (n1 ^ 2 + n2 ^ 2 + n3 ^ 2) * n2,
            t3 - (n1 * (t1 - p1) + n2 * (t2 - p2) + n3 * (t3 - p3)) / (n1 ^ 2 + n2 ^ 2 + n3 ^ 2) * n3] := by
  simp only [projection, euclidean3d, vector, npDot, List.map_cons, List.map_nil,
    List.cons_append, List.nil_append, List.length_cons, List.length_nil, List.zip_cons_cons,
    List.zip_nil_right, List.sum_cons, List.sum_nil]
  norm_num
  split_ifs with h
  all_goals first
    | (simp only [List.zip_cons_cons, List.map_cons, List.map_nil, List.sum_cons,
         List.sum_nil, List.zip_nil_right, Option.some.injEq, List.cons.injEq, and_true]
       refine ⟨by ring, by ring, by ring⟩)
    | simp_all

/-- C9: plane projection is idempotent over exact arithmetic: for a non-zero
3-component normal, a 3-component plane point and a 3-component target,
applying projection to its own output (same normal, same plane point)
returns that output unchanged.  The normal re-orientation step drops out:
both sign choices produce the same projected point. -/
theorem projection_idempotent (n p t u : List ℚ)
    (hn3 : n.length = 3) (hp3 : p.length = 3) (ht3 : t.length = 3)
    (hn0 : n ≠ [0, 0, 0])
    (hu : projection n p t = some u) :
    projection n p u = some u := by
  obtain ⟨n1, n2, n3, rfl⟩ := List.length_eq_three.mp hn3
  obtain ⟨p1, p2, p3, rfl⟩ := List.length_eq_three.mp hp3
  obtain ⟨t1, t2, t3, rfl⟩ := List.length_eq_three.mp ht3
  have hsd : n1 ^ 2 + n2 ^ 2 + n3 ^ 2 ≠ 0 := by
    intro h0
    have h1 : n1 ^ 2 = 0 := by nlinarith [sq_nonneg n1, sq_nonneg n2, sq_nonneg n3]
    have h2 : n2 ^ 2 = 0 := by nlinarith [sq_nonneg n1, sq_nonneg n2, sq_nonneg n3]
    have h3 : n3 ^ 2 = 0 := by nlinarith [sq_nonneg n1, sq_nonneg n2, sq_nonneg n3]
    exact hn0 (by rw [sq_eq_zero_iff.mp h1, sq_eq_zero_iff.mp h2, sq_eq_zero_iff.mp h3])
  rw [projection_eq] at hu
  have hu2 := Option.some.inj hu
  subst hu2
  rw [projection_eq]
  simp only [Option.some.injEq, List.cons.injEq, and_true]
  refine ⟨?_, ?_, ?_⟩ <;> (field_simp; ring)

/-- Witness for projection_idempotent: normal (0,0,1), plane point the
origin, target (1,1,1); the projection is (1,1,0) and projecting again
returns it unchanged. -/
theorem projection_idempotent_witness :
    projection [0, 0, 1] [0, 0, 0] [1, 1, 1] = some [1, 1, 0] ∧
    projection [0, 0, 1] [0, 0, 0] [1, 1, 0] = some [1, 1, 0] :=
  ⟨by simp [projection, euclidean3d, vector, npDot],
   projection_idempotent [0, 0, 1] [0, 0, 0] [1, 1, 1] [1, 1, 0]
     (by simp) (by simp) (by simp) (by simp)
     (by simp [projection, euclidean3d, vector, npDot])⟩
